import Mathlib

/-!
Verification of the degree-planner repository: a shallow embedding of its
data model (models.py), its requirement-validation utilities (utils.py),
its keyword-based course/requirement linker (parsers.py) and its
table-driven document parser (scripts/parsers.py), together with theorems
about the behaviours the specification describes.

Python dictionaries are modelled as insertion-ordered association lists
whose update writes the first occurrence of a key in place and appends new
keys at the end; Python sets of strings are modelled as duplicate-free
lists with membership-guarded insertion; Python floats are modelled as
rationals; `datetime.now()` results are passed in as explicit `Nat`
arguments; fallible code returns `Except`.
-/

namespace DegreePlanner

/-- Lookup in a Python-dict-as-association-list: the value at the first
occurrence of the key (keys are unique in lists built by `dictSet`). -/
def dictGet? {α : Type} (d : List (String × α)) (k : String) : Option α :=
  (d.find? (fun e => e.1 = k)).map (·.2)

/-- Python dict write `d[k] = v`: update the first occurrence of `k` in
place, or append `(k, v)` at the end (insertion order preserved). -/
def dictSet {α : Type} : List (String × α) → String → α → List (String × α)
  | [], k, v => [(k, v)]
  | e :: rest, k, v => if e.1 = k then (k, v) :: rest else e :: dictSet rest k v

theorem dictGet?_dictSet_self {α : Type} (d : List (String × α)) (k : String) (v : α) :
    dictGet? (dictSet d k v) k = some v := by
  induction d with
  | nil => simp [dictGet?, dictSet]
  | cons e rest ih =>
    by_cases h : e.1 = k
    · simp [dictGet?, dictSet, h, List.find?]
    · simp only [dictSet, if_neg h]
      simpa [dictGet?, List.find?, h] using ih

theorem dictGet?_dictSet_ne {α : Type} (d : List (String × α)) (k k' : String) (v : α)
    (h : k' ≠ k) : dictGet? (dictSet d k v) k' = dictGet? d k' := by
  induction d with
  | nil => simp [dictGet?, dictSet, List.find?, Ne.symm h]
  | cons e rest ih =>
    by_cases he : e.1 = k
    · simp [dictGet?, dictSet, he, List.find?, Ne.symm h]
    · simp only [dictSet, if_neg he]
      by_cases he' : e.1 = k'
      · simp [dictGet?, List.find?, he']
      · simpa [dictGet?, List.find?, he'] using ih

/-! ## Data model (models.py) -/

/-- models.py `Course`: credits are modelled as rationals, the Python set
`satisfies` as a duplicate-free list of requirement ids. -/
structure Course where
  id : String
  code : String
  title : String
  faculty : String
  credits : ℚ
  days : String
  time : String
  semester : String
  delivery_mode : String
  description : String
  satisfies : List String
deriving DecidableEq

/-- models.py `Requirement`: the Python set `satisfied_by` is modelled as a
duplicate-free list of course ids. -/
structure Requirement where
  id : String
  label : String
  min_credits : ℚ
  satisfied_by : List String
deriving DecidableEq

/-- models.py `Plan`: `selections` is a Python dict from semester label to a
list of course ids; the two timestamps are abstract `Nat` instants. -/
structure Plan where
  selections : List (String × List String)
  notes : String
  created_at : Nat
  updated_at : Nat
deriving DecidableEq

/-- models.py `Plan.add_course`: insert an empty list for a new semester,
then append the course id and touch `updated_at` only when it is absent.
`datetime.now()` is the explicit argument `now`. -/
def Plan.add_course (p : Plan) (semester cid : String) (now : Nat) : Plan :=
  let sels := if (dictGet? p.selections semester).isNone
              then dictSet p.selections semester [] else p.selections
  let cur := (dictGet? sels semester).getD []
  if cid ∈ cur then { p with selections := sels }
  else { p with selections := dictSet sels semester (cur ++ [cid]), updated_at := now }

/-- models.py `Plan.remove_course`: remove the first occurrence of the id and
touch `updated_at`, but only when the semester exists and contains the id. -/
def Plan.remove_course (p : Plan) (semester cid : String) (now : Nat) : Plan :=
  match dictGet? p.selections semester with
  | none => p
  | some lst =>
    if cid ∈ lst then
      { p with selections := dictSet p.selections semester (lst.erase cid),
               updated_at := now }
    else p

/-- models.py `Plan.get_courses_for_semester`. -/
def Plan.get_courses_for_semester (p : Plan) (semester : String) : List String :=
  (dictGet? p.selections semester).getD []

theorem nodup_append_singleton {l : List String} {x : String}
    (h : l.Nodup) (hx : x ∉ l) : (l ++ [x]).Nodup := by
  induction l with
  | nil => simp
  | cons a t ih =>
    rcases List.nodup_cons.mp h with ⟨ha, ht⟩
    have hx' : x ∉ t := fun hm => hx (List.mem_cons_of_mem a hm)
    have hax : a ≠ x := fun he => hx (he ▸ List.mem_cons_self a t)
    refine List.nodup_cons.mpr ⟨?_, ih ht hx'⟩
    intro hmem
    rcases List.mem_append.mp hmem with hmem | hmem
    · exact ha hmem
    · exact hax (List.mem_singleton.mp hmem)

theorem dictSet_dictSet {α : Type} (d : List (String × α)) (k : String) (v w : α) :
    dictSet (dictSet d k v) k w = dictSet d k w := by
  induction d with
  | nil => simp [dictSet]
  | cons e rest ih =>
    by_cases h : e.1 = k
    · simp [dictSet, h]
    · simp [dictSet, h, ih]

theorem add_course_of_none {p : Plan} {sem : String} (cid : String) (now : Nat)
    (h : dictGet? p.selections sem = none) :
    p.add_course sem cid now
      = { p with selections := dictSet p.selections sem [cid], updated_at := now } := by
  simp [Plan.add_course, h, dictGet?_dictSet_self, dictSet_dictSet]

theorem add_course_of_mem {p : Plan} {sem cid : String} {l : List String} (now : Nat)
    (h : dictGet? p.selections sem = some l) (hm : cid ∈ l) :
    p.add_course sem cid now = p := by
  simp [Plan.add_course, h, hm]

theorem add_course_of_not_mem {p : Plan} {sem cid : String} {l : List String} (now : Nat)
    (h : dictGet? p.selections sem = some l) (hm : cid ∉ l) :
    p.add_course sem cid now
      = { p with selections := dictSet p.selections sem (l ++ [cid]), updated_at := now } := by
  simp [Plan.add_course, h, hm]

/-- Claim C7: `add_course(sem, id)` twice equals `add_course(sem, id)` once
(so in particular the second call changes neither `selections[sem]` nor
`updated_at`), and `add_course` preserves the invariant that no semester
sequence contains a duplicate course id. -/
theorem C7_add_course_idempotent_nodup (p : Plan) (sem cid : String) (t₁ t₂ : Nat) :
    (p.add_course sem cid t₁).add_course sem cid t₂ = p.add_course sem cid t₁
    ∧ ((∀ s l, dictGet? p.selections s = some l → l.Nodup) →
        ∀ s l, dictGet? (p.add_course sem cid t₁).selections s = some l → l.Nodup)
    ∧ ((p.add_course sem cid t₁).add_course sem cid t₂).updated_at
        = (p.add_course sem cid t₁).updated_at := by
  have main : (p.add_course sem cid t₁).add_course sem cid t₂ = p.add_course sem cid t₁
      ∧ ((∀ s l, dictGet? p.selections s = some l → l.Nodup) →
          ∀ s l, dictGet? (p.add_course sem cid t₁).selections s = some l → l.Nodup) := by
    cases h0 : dictGet? p.selections sem with
    | none =>
      rw [add_course_of_none cid t₁ h0]
      constructor
      · exact add_course_of_mem t₂ (by simpa using dictGet?_dictSet_self p.selections sem [cid])
          (List.mem_singleton_self cid)
      · intro h s l hl
        simp only at hl
        by_cases hs : s = sem
        · subst hs
          rw [dictGet?_dictSet_self] at hl
          cases hl
          simp
        · rw [dictGet?_dictSet_ne _ _ _ _ hs] at hl
          exact h s l hl
    | some l₀ =>
      by_cases hm : cid ∈ l₀
      · rw [add_course_of_mem t₁ h0 hm]
        exact ⟨add_course_of_mem t₂ h0 hm, fun h => h⟩
      · rw [add_course_of_not_mem t₁ h0 hm]
        constructor
        · exact add_course_of_mem t₂
            (by simpa using dictGet?_dictSet_self p.selections sem (l₀ ++ [cid]))
            (by simp)
        · intro h s l hl
          simp only at hl
          by_cases hs : s = sem
          · subst hs
            rw [dictGet?_dictSet_self] at hl
            cases hl
            exact nodup_append_singleton (h _ _ h0) hm
          · rw [dictGet?_dictSet_ne _ _ _ _ hs] at hl
            exact h s l hl
  exact ⟨main.1, main.2, by rw [main.1]⟩

/-- Concrete plan used by the plan-operation witnesses. -/
def samplePlan : Plan :=
  { selections := [("Fall 2025", ["BIBL101"])], notes := "n", created_at := 3, updated_at := 4 }

/-- Witness for C7 at a concrete plan. -/
theorem C7_witness :
    (samplePlan.add_course "Fall 2025" "HIST201" 5).add_course "Fall 2025" "HIST201" 6
      = samplePlan.add_course "Fall 2025" "HIST201" 5
    ∧ (∀ s l, dictGet? (samplePlan.add_course "Fall 2025" "HIST201" 5).selections s = some l →
        l.Nodup) := by
  have h := C7_add_course_idempotent_nodup samplePlan "Fall 2025" "HIST201" 5 6
  refine ⟨h.1, h.2.1 ?_⟩
  intro s l hl
  by_cases hs : ("Fall 2025" : String) = s
  · simp [samplePlan, dictGet?, List.find?, hs] at hl
    simp [← hl]
  · simp [samplePlan, dictGet?, List.find?, hs] at hl

/-- Claim C8: `remove_course` on an absent course id (including an absent
semester) is a no-op: the plan — selections, notes and both timestamps —
is returned unchanged. -/
theorem C8_remove_course_absent_noop (p : Plan) (sem cid : String) (t : Nat)
    (h : ∀ l, dictGet? p.selections sem = some l → cid ∉ l) :
    p.remove_course sem cid t = p := by
  unfold Plan.remove_course
  cases hsem : dictGet? p.selections sem with
  | none => rfl
  | some lst => simp [h lst hsem]

/-- Witness for C8 at a concrete plan: absent id in a present semester, and
a wholly absent semester. -/
theorem C8_witness :
    samplePlan.remove_course "Fall 2025" "HIST201" 9 = samplePlan
    ∧ samplePlan.remove_course "Spring 2026" "BIBL101" 9 = samplePlan := by
  constructor
  · exact C8_remove_course_absent_noop _ _ _ _ (by decide)
  · exact C8_remove_course_absent_noop _ _ _ _ (by decide)

/-! ## Requirement validator (utils.py) -/

/-- utils.py `course_lookup = {course.id: course for course in courses}`:
a dict comprehension, so a later course with the same id overwrites an
earlier one — lookup returns the last course bearing the id. -/
def course_lookup (courses : List Course) (cid : String) : Option Course :=
  courses.reverse.find? (fun c => c.id = cid)

/-- One entry of the dictionary `validate_requirements` returns. The
display-only `status` string of the source is not modelled. -/
structure VResult where
  requirement : Requirement
  selected_courses : List Course
  total_credits : ℚ
  min_credits : ℚ
  is_met : Bool
  deficit : ℚ
deriving DecidableEq

/-- utils.py `validate_requirements`, inner double loop for one requirement
id: scan every semester's course ids in plan order, appending each catalog
course that satisfies the requirement and accumulating its credits. -/
def reqScan (plan : Plan) (courses : List Course) (rid : String) : List Course × ℚ :=
  plan.selections.foldl (fun acc sel =>
    sel.2.foldl (fun acc cid =>
      match course_lookup courses cid with
      | some c => if rid ∈ c.satisfies then (acc.1 ++ [c], acc.2 + c.credits) else acc
      | none => acc) acc) ([], 0)

/-- The validation entry `validate_requirements` stores for one requirement. -/
def mkVResult (plan : Plan) (courses : List Course) (req : Requirement) : VResult :=
  let scan := reqScan plan courses req.id
  { requirement := req, selected_courses := scan.1, total_credits := scan.2,
    min_credits := req.min_credits,
    is_met := decide (req.min_credits ≤ scan.2),
    deficit := max 0 (req.min_credits - scan.2) }

/-- utils.py `validate_requirements`: a dict keyed by requirement id. -/
def validate_requirements (plan : Plan) (courses : List Course)
    (requirements : List Requirement) : List (String × VResult) :=
  requirements.foldl (fun acc req => dictSet acc req.id (mkVResult plan courses req)) []

/-- utils.py `calculate_total_credits`: the `course_ids` list built by
extending over all semesters; note Python's truthiness test `if semester:`
treats an empty-string semester like `None`. -/
def planAllCourseIds (p : Plan) : List String :=
  p.selections.foldl (fun acc sel => acc ++ sel.2) []

/-- Python truthiness of the optional `semester` argument: `None` and the
empty string are both falsy. -/
def semTruthy : Option String → Bool
  | some s => s ≠ ""
  | none => false

def calculate_total_credits (plan : Plan) (courses : List Course)
    (semester : Option String) : ℚ :=
  let course_ids :=
    if semTruthy semester then
      plan.get_courses_for_semester (semester.getD "")
    else planAllCourseIds plan
  course_ids.foldl (fun total cid =>
    match course_lookup courses cid with
    | some c => total + c.credits
    | none => total) 0

/-- utils.py `get_requirement_progress` result. -/
structure Progress where
  total_requirements : Nat
  met_requirements : Nat
  progress_percentage : ℚ
  validation_results : List (String × VResult)
deriving DecidableEq

def get_requirement_progress (plan : Plan) (courses : List Course)
    (requirements : List Requirement) : Progress :=
  let validation := validate_requirements plan courses requirements
  let total := requirements.length
  let met := (validation.filter (fun e => e.2.is_met)).length
  { total_requirements := total, met_requirements := met,
    progress_percentage := if 0 < total then (met : ℚ) / (total : ℚ) * 100 else 0,
    validation_results := validation }

/-! Claim-side formulations (from the spec's words), to be compared with
the fold-based source embedding. -/

/-- Spec wording of C1: a selected course id contributes the catalog course
when that course's `satisfies` set contains the requirement id. -/
def pickSat (courses : List Course) (rid cid : String) : Option Course :=
  match course_lookup courses cid with
  | some c => if rid ∈ c.satisfies then some c else none
  | none => none

/-- Spec wording of C1: the courses counted for a requirement, once per
appearance of their id in the plan's selections. -/
def claimedSelected (plan : Plan) (courses : List Course) (rid : String) : List Course :=
  (planAllCourseIds plan).filterMap (pickSat courses rid)

/-- Spec wording of C1: the summed credits for a requirement. -/
def claimedTotal (plan : Plan) (courses : List Course) (rid : String) : ℚ :=
  ((claimedSelected plan courses rid).map Course.credits).sum

theorem reqScan_inner (courses : List Course) (rid : String) (cids : List String)
    (acc : List Course × ℚ) :
    cids.foldl (fun acc cid =>
      match course_lookup courses cid with
      | some c => if rid ∈ c.satisfies then (acc.1 ++ [c], acc.2 + c.credits) else acc
      | none => acc) acc
    = (acc.1 ++ cids.filterMap (pickSat courses rid),
       acc.2 + ((cids.filterMap (pickSat courses rid)).map Course.credits).sum) := by
  induction cids generalizing acc with
  | nil => simp
  | cons cid rest ih =>
    simp only [List.foldl_cons, List.filterMap_cons]
    cases hc : course_lookup courses cid with
    | none => simp [pickSat, hc, ih]
    | some c =>
      by_cases hs : rid ∈ c.satisfies
      · simp [pickSat, hc, hs, ih, add_assoc]
      · simp [pickSat, hc, hs, ih]

theorem foldl_append_ids (sels : List (String × List String)) (acc : List String) :
    sels.foldl (fun a sel => a ++ sel.2) acc = acc ++ (sels.map (·.2)).flatten := by
  induction sels generalizing acc with
  | nil => simp
  | cons sel rest ih => simp [ih, List.append_assoc]

theorem reqScan_eq (plan : Plan) (courses : List Course) (rid : String) :
    reqScan plan courses rid
      = (claimedSelected plan courses rid, claimedTotal plan courses rid) := by
  have outer : ∀ (sels : List (String × List String)) (acc : List Course × ℚ),
      sels.foldl (fun acc sel =>
        sel.2.foldl (fun acc cid =>
          match course_lookup courses cid with
          | some c => if rid ∈ c.satisfies then (acc.1 ++ [c], acc.2 + c.credits) else acc
          | none => acc) acc) acc
      = (acc.1 ++ ((sels.map (·.2)).flatten).filterMap (pickSat courses rid),
         acc.2 + (((sels.map (·.2)).flatten.filterMap (pickSat courses rid)).map
           Course.credits).sum) := by
    intro sels
    induction sels with
    | nil => intro acc; simp
    | cons sel rest ih =>
      intro acc
      rw [List.foldl_cons, reqScan_inner, ih]
      simp [List.filterMap_append, List.append_assoc, add_assoc]
  have hids : planAllCourseIds plan = (plan.selections.map (·.2)).flatten := by
    simpa using foldl_append_ids plan.selections []
  unfold reqScan claimedTotal claimedSelected
  rw [outer plan.selections ([], 0), hids]
  simp

theorem validate_go_of_forall_ne (plan : Plan) (courses : List Course)
    (reqs : List Requirement) (acc : List (String × VResult)) (k : String)
    (h : ∀ r ∈ reqs, r.id ≠ k) :
    dictGet? (reqs.foldl (fun acc req => dictSet acc req.id (mkVResult plan courses req)) acc) k
      = dictGet? acc k := by
  induction reqs generalizing acc with
  | nil => rfl
  | cons r rest ih =>
    simp only [List.foldl_cons]
    rw [ih _ (fun r' hr' => h r' (List.mem_cons_of_mem r hr'))]
    exact dictGet?_dictSet_ne _ _ _ _ (fun he => h r (List.mem_cons_self r rest) he.symm)

theorem validate_go_of_mem (plan : Plan) (courses : List Course)
    (reqs : List Requirement) (req : Requirement)
    (hN : (reqs.map Requirement.id).Nodup) (hm : req ∈ reqs)
    (acc : List (String × VResult)) :
    dictGet? (reqs.foldl (fun acc req => dictSet acc req.id (mkVResult plan courses req)) acc)
        req.id
      = some (mkVResult plan courses req) := by
  induction reqs generalizing acc with
  | nil => cases hm
  | cons r rest ih =>
    simp only [List.map_cons, List.nodup_cons] at hN
    rcases List.mem_cons.mp hm with rfl | hmem
    · simp only [List.foldl_cons]
      rw [validate_go_of_forall_ne plan courses rest _ req.id
        (fun r' hr' he => hN.1 (he ▸ List.mem_map_of_mem Requirement.id hr'))]
      exact dictGet?_dictSet_self _ _ _
    · exact ih hN.2 hmem _

theorem validate_lookup (plan : Plan) (courses : List Course)
    (reqs : List Requirement) (req : Requirement)
    (hN : (reqs.map Requirement.id).Nodup) (hm : req ∈ reqs) :
    dictGet? (validate_requirements plan courses reqs) req.id
      = some (mkVResult plan courses req) :=
  validate_go_of_mem plan courses reqs req hN hm []

/-- Claim C1: for every plan, course catalog and requirement catalog
(requirement ids pairwise distinct, as catalog identities are), the
validator returns for each requirement an entry whose `total_credits` is
the sum of credits of catalog courses appearing among the plan's selected
ids with the requirement id in their `satisfies` set, whose `is_met` is
exactly `total_credits >= min_credits`, and whose `deficit` is exactly
`max(0, min_credits - total_credits)`, never negative. -/
theorem C1_validate_requirements_exact (plan : Plan) (courses : List Course)
    (reqs : List Requirement) (req : Requirement)
    (hN : (reqs.map Requirement.id).Nodup) (hm : req ∈ reqs) :
    dictGet? (validate_requirements plan courses reqs) req.id
        = some (mkVResult plan courses req)
    ∧ (mkVResult plan courses req).requirement = req
    ∧ (mkVResult plan courses req).total_credits = claimedTotal plan courses req.id
    ∧ (mkVResult plan courses req).selected_courses = claimedSelected plan courses req.id
    ∧ (mkVResult plan courses req).min_credits = req.min_credits
    ∧ ((mkVResult plan courses req).is_met = true
        ↔ req.min_credits ≤ (mkVResult plan courses req).total_credits)
    ∧ (mkVResult plan courses req).deficit
        = max 0 (req.min_credits - (mkVResult plan courses req).total_credits)
    ∧ 0 ≤ (mkVResult plan courses req).deficit := by
  refine ⟨validate_lookup plan courses reqs req hN hm, rfl, ?_, ?_, rfl, ?_, rfl, ?_⟩
  · simp [mkVResult, reqScan_eq]
  · simp [mkVResult, reqScan_eq]
  · simp [mkVResult]
  · exact le_max_left 0 _

/-- Concrete catalog used by the validator witnesses: the `bible`
requirement together with two satisfying courses. -/
def reqBible : Requirement :=
  { id := "bible", label := "Bible/Sacred Texts", min_credits := 12, satisfied_by := [] }

def courseBible1 : Course :=
  { id := "BIBL101_Fall2025_Smith", code := "BIBL 101", title := "Introduction to Biblical Studies",
    faculty := "Dr. Smith", credits := 6, days := "MW", time := "10:00-11:30",
    semester := "Fall 2025", delivery_mode := "In Person", description := "intro",
    satisfies := ["bible"] }

def courseBible2 : Course :=
  { id := "BIBL201_Spring2026_Smith", code := "BIBL 201", title := "Hebrew Bible",
    faculty := "Dr. Smith", credits := 6, days := "TR", time := "14:00-15:30",
    semester := "Spring 2026", delivery_mode := "In Person", description := "hb",
    satisfies := ["bible"] }

def planBible : Plan :=
  { selections := [("Fall 2025", ["BIBL101_Fall2025_Smith"]),
                   ("Spring 2026", ["BIBL201_Spring2026_Smith"])],
    notes := "", created_at := 0, updated_at := 0 }

/-- Witness for C1 at a concrete plan and catalog. -/
theorem C1_witness :
    dictGet? (validate_requirements planBible [courseBible1, courseBible2] [reqBible]) "bible"
        = some (mkVResult planBible [courseBible1, courseBible2] reqBible)
    ∧ (mkVResult planBible [courseBible1, courseBible2] reqBible).total_credits
        = claimedTotal planBible [courseBible1, courseBible2] "bible"
    ∧ ((mkVResult planBible [courseBible1, courseBible2] reqBible).is_met = true
        ↔ (12 : ℚ) ≤ (mkVResult planBible [courseBible1, courseBible2] reqBible).total_credits)
    ∧ 0 ≤ (mkVResult planBible [courseBible1, courseBible2] reqBible).deficit := by
  have h := C1_validate_requirements_exact planBible [courseBible1, courseBible2] [reqBible]
    reqBible (by decide) (by decide)
  exact ⟨h.1, h.2.2.1, h.2.2.2.2.2.1, h.2.2.2.2.2.2.2⟩

theorem dictGet?_cons {α : Type} (e : String × α) (rest : List (String × α)) (k : String) :
    dictGet? (e :: rest) k = if e.1 = k then some e.2 else dictGet? rest k := by
  by_cases h : e.1 = k
  · simp [dictGet?, List.find?, h]
  · simp [dictGet?, List.find?, h]

theorem dictGet?_append_of_none {α : Type} (a b : List (String × α)) (k : String)
    (h : dictGet? a k = none) : dictGet? (a ++ b) k = dictGet? b k := by
  induction a with
  | nil => simp
  | cons e rest ih =>
    rw [dictGet?_cons] at h
    by_cases he : e.1 = k
    · rw [if_pos he] at h; cases h
    · rw [if_neg he] at h
      rw [List.cons_append, dictGet?_cons, if_neg he]
      exact ih h

theorem dictGet?_singleton_ne {α : Type} (k k' : String) (v : α) (h : k' ≠ k) :
    dictGet? [(k, v)] k' = none := by
  simp [dictGet?, List.find?, Ne.symm h]

theorem dictSet_of_none {α : Type} (d : List (String × α)) (k : String) (v : α)
    (h : dictGet? d k = none) : dictSet d k v = d ++ [(k, v)] := by
  induction d with
  | nil => rfl
  | cons e rest ih =>
    rw [dictGet?_cons] at h
    by_cases he : e.1 = k
    · rw [if_pos he] at h; cases h
    · rw [if_neg he] at h
      simp only [dictSet, if_neg he, List.cons_append]
      rw [ih h]

theorem validate_go_eq_map (plan : Plan) (courses : List Course)
    (reqs : List Requirement) (acc : List (String × VResult))
    (hN : (reqs.map Requirement.id).Nodup)
    (hfresh : ∀ r ∈ reqs, dictGet? acc r.id = none) :
    reqs.foldl (fun acc req => dictSet acc req.id (mkVResult plan courses req)) acc
      = acc ++ reqs.map (fun r => (r.id, mkVResult plan courses r)) := by
  induction reqs generalizing acc with
  | nil => simp
  | cons r rest ih =>
    simp only [List.map_cons, List.nodup_cons] at hN
    simp only [List.foldl_cons, List.map_cons]
    rw [dictSet_of_none _ _ _ (hfresh r (List.mem_cons_self r rest))]
    rw [ih _ hN.2 ?_]
    · simp [List.append_assoc]
    · intro r' hr'
      rw [dictGet?_append_of_none _ _ _ (hfresh r' (List.mem_cons_of_mem r hr'))]
      exact dictGet?_singleton_ne _ _ _
        (fun he => hN.1 (he ▸ List.mem_map_of_mem Requirement.id hr'))

theorem length_filter_map {α β : Type} (l : List α) (f : α → β) (p : β → Bool) :
    ((l.map f).filter p).length = (l.filter (fun a => p (f a))).length := by
  induction l with
  | nil => rfl
  | cons a t ih =>
    by_cases h : p (f a)
    · simp [h, ih]
    · simp [h, ih]

/-- Spec wording of C9: the number of requirements whose validation result
has `is_met` true. -/
def metCount (plan : Plan) (courses : List Course) (reqs : List Requirement) : Nat :=
  (reqs.filter (fun r =>
    ((dictGet? (validate_requirements plan courses reqs) r.id).map VResult.is_met).getD
      false)).length

theorem metCount_eq (plan : Plan) (courses : List Course) (reqs : List Requirement)
    (hN : (reqs.map Requirement.id).Nodup) :
    metCount plan courses reqs
      = (reqs.filter (fun r => (mkVResult plan courses r).is_met)).length := by
  unfold metCount
  congr 1
  refine List.filter_congr ?_
  intro r hr
  rw [validate_lookup plan courses reqs r hN hr]
  rfl

/-- Claim C9: for a requirement catalog (pairwise-distinct ids) the
aggregate progress percentage is the count of requirements whose validation
result is met, divided by the total requirement count, times 100; and it
is 0 on the empty requirement list (no division by zero occurs). -/
theorem C9_progress_percentage (plan : Plan) (courses : List Course)
    (reqs : List Requirement) (hN : (reqs.map Requirement.id).Nodup) :
    (get_requirement_progress plan courses reqs).progress_percentage
      = (metCount plan courses reqs : ℚ) / (reqs.length : ℚ) * 100
    ∧ (reqs = [] → (get_requirement_progress plan courses reqs).progress_percentage = 0) := by
  have hval : validate_requirements plan courses reqs
      = reqs.map (fun r => (r.id, mkVResult plan courses r)) := by
    simpa using validate_go_eq_map plan courses reqs [] hN (fun r _ => rfl)
  have hmetCount : metCount plan courses reqs
      = (reqs.filter (fun r => (mkVResult plan courses r).is_met)).length :=
    metCount_eq plan courses reqs hN
  have hmet : ((validate_requirements plan courses reqs).filter
        (fun e => e.2.is_met)).length
      = metCount plan courses reqs := by
    rw [hval, hmetCount]
    exact length_filter_map reqs _ _
  constructor
  · cases hempty : reqs with
    | nil =>
      subst hempty
      simp [get_requirement_progress, metCount, validate_requirements]
    | cons r rest =>
      have hpos : 0 < reqs.length := by rw [hempty]; exact Nat.succ_pos _
      rw [← hempty]
      simp only [get_requirement_progress, hmet, if_pos hpos]
  · intro h
    subst h
    simp [get_requirement_progress]

def reqHist : Requirement :=
  { id := "historical", label := "Historical Studies", min_credits := 9, satisfied_by := [] }

/-- Witness for C9: one met requirement out of two gives exactly 50. -/
theorem C9_witness :
    ((get_requirement_progress planBible [courseBible1, courseBible2]
        [reqBible, reqHist]).progress_percentage
      = (metCount planBible [courseBible1, courseBible2] [reqBible, reqHist] : ℚ)
          / ((2 : Nat) : ℚ) * 100)
    ∧ (get_requirement_progress planBible [courseBible1, courseBible2]
        [reqBible, reqHist]).progress_percentage = 50
    ∧ (get_requirement_progress planBible [courseBible1, courseBible2]
        ([] : List Requirement)).progress_percentage = 0 := by
  have h := C9_progress_percentage planBible [courseBible1, courseBible2]
    [reqBible, reqHist] (by decide)
  have h0 := C9_progress_percentage planBible [courseBible1, courseBible2] [] (by decide)
  have hsb : claimedSelected planBible [courseBible1, courseBible2] "bible"
      = [courseBible1, courseBible2] := by decide
  have hsh : claimedSelected planBible [courseBible1, courseBible2] "historical" = [] := by
    decide
  have hb : (mkVResult planBible [courseBible1, courseBible2] reqBible).is_met = true := by
    simp only [mkVResult, reqScan_eq, claimedTotal, reqBible]
    rw [hsb]
    norm_num [courseBible1, courseBible2]
  have hh : (mkVResult planBible [courseBible1, courseBible2] reqHist).is_met = false := by
    simp only [mkVResult, reqScan_eq, claimedTotal, reqHist]
    rw [hsh]
    norm_num
  have hmc : metCount planBible [courseBible1, courseBible2] [reqBible, reqHist] = 1 := by
    rw [metCount_eq _ _ _ (by decide)]
    simp [List.filter, hb, hh]
  refine ⟨h.1, ?_, h0.2 rfl⟩
  rw [h.1, hmc]
  norm_num

/-- Claim C10: a course id selected in two different semesters is counted
once per occurrence — `validate_requirements` lists the course twice and
doubles its credits, and `calculate_total_credits` likewise. -/
theorem C10_duplicate_across_semesters (s₁ s₂ cid : String) (courses : List Course)
    (c : Course) (req : Requirement) (plan : Plan)
    (hsel : plan.selections = [(s₁, [cid]), (s₂, [cid])]) (_hne : s₁ ≠ s₂)
    (hc : course_lookup courses cid = some c) (hs : req.id ∈ c.satisfies) :
    dictGet? (validate_requirements plan courses [req]) req.id
        = some (mkVResult plan courses req)
    ∧ (mkVResult plan courses req).selected_courses = [c, c]
    ∧ (mkVResult plan courses req).total_credits = c.credits + c.credits
    ∧ calculate_total_credits plan courses none = c.credits + c.credits := by
  have hids : planAllCourseIds plan = [cid, cid] := by
    simp [planAllCourseIds, hsel]
  refine ⟨validate_lookup plan courses [req] req (by simp) (by simp), ?_, ?_, ?_⟩
  · simp [mkVResult, reqScan_eq, claimedSelected, hids, pickSat, hc, hs]
  · simp [mkVResult, reqScan_eq, claimedTotal, claimedSelected, hids, pickSat, hc, hs]
  · simp [calculate_total_credits, semTruthy, hids, hc]

/-- Plan selecting the same course id in two different semesters. -/
def planDup : Plan :=
  { selections := [("Fall 2025", ["BIBL101_Fall2025_Smith"]),
                   ("Spring 2026", ["BIBL101_Fall2025_Smith"])],
    notes := "", created_at := 0, updated_at := 0 }

/-- Witness for C10 at a concrete duplicated selection. -/
theorem C10_witness :
    dictGet? (validate_requirements planDup [courseBible1] [reqBible]) "bible"
        = some (mkVResult planDup [courseBible1] reqBible)
    ∧ (mkVResult planDup [courseBible1] reqBible).selected_courses
        = [courseBible1, courseBible1]
    ∧ (mkVResult planDup [courseBible1] reqBible).total_credits = (6 : ℚ) + 6
    ∧ calculate_total_credits planDup [courseBible1] none = (6 : ℚ) + 6 := by
  exact C10_duplicate_across_semesters "Fall 2025" "Spring 2026" "BIBL101_Fall2025_Smith"
    [courseBible1] courseBible1 reqBible planDup rfl (by decide) (by decide) (by decide)

/-! ## Keyword-based course/requirement linker (parsers.py) -/

/-- Python's substring operator for strings (`kw in text`). -/
def substrB (needle hay : String) : Bool :=
  (List.range (hay.toList.length + 1)).any
    (fun i => needle.toList.isPrefixOf (hay.toList.drop i))

/-- Python `str.upper()`: characterwise uppercasing. -/
def strUpper (s : String) : String := String.mk (s.toList.map Char.toUpper)

/-- parsers.py `link_courses_to_requirements` keyword mapping (insertion
order preserved, as Python dict iteration follows it). -/
def keywordMapping : List (String × List String) :=
  [("bible", ["BIBL", "BIBLE", "SCRIPTURE"]),
   ("historical", ["HIST", "HISTORY", "CHURCH"]),
   ("interreligious", ["INTER", "RELIGION", "DIVERSITY"]),
   ("practical", ["PRAC", "MINISTRY", "PASTORAL"]),
   ("theology_ethics", ["THEO", "ETHICS", "MORAL"]),
   ("field_ed", ["FIELD", "INTERN", "PRACTICUM"]),
   ("mssw_core", ["MSSW", "SOCIAL"]),
   ("integrative_seminar", ["SEMINAR", "INTEGRATIVE"]),
   ("social_work_practice", ["PRACTICE", "CLINICAL"]),
   ("social_work_research", ["RESEARCH", "METHODS"]),
   ("social_work_policy", ["POLICY", "ADVOCACY"])]

/-- parsers.py: the uppercased `"{code} {title}"` text matched against. -/
def courseText (c : Course) : String := strUpper (c.code ++ " " ++ c.title)

/-- Python `set.add` on the list model of a set: no-op when present. -/
def addSet (l : List String) (x : String) : List String :=
  if x ∈ l then l else l ++ [x]

/-- Inner loop of the linker: add the course id to the `satisfied_by` of
the first requirement carrying the matched id (the source breaks after the
first match). -/
def addToFirstReq : List Requirement → String → String → List Requirement
  | [], _, _ => []
  | r :: rest, rid, cid =>
    if r.id = rid then
      { r with satisfied_by := addSet r.satisfied_by cid } :: rest
    else r :: addToFirstReq rest rid cid

/-- One keyword-mapping entry processed for one course: on a match the
requirement id joins the course's `satisfies` AND the course id joins the
requirement's `satisfied_by`. -/
def linkStep (c : Course) (st : Course × List Requirement)
    (e : String × List String) : Course × List Requirement :=
  if e.2.any (fun kw => substrB kw (courseText c)) then
    ({ st.1 with satisfies := addSet st.1.satisfies e.1 },
     addToFirstReq st.2 e.1 c.id)
  else st

/-- All keyword-mapping entries processed for one course. -/
def linkOne (reqs : List Requirement) (c : Course) : Course × List Requirement :=
  keywordMapping.foldl (linkStep c) (c, reqs)

/-- parsers.py `link_courses_to_requirements`: in-place mutation of the two
lists is modelled by returning the updated lists. -/
def link_courses_to_requirements (courses : List Course)
    (reqs : List Requirement) : List Course × List Requirement :=
  courses.foldl (fun st c =>
    let res := linkOne st.2 c
    (st.1 ++ [res.1], res.2)) ([], reqs)

/-- Whether some entry of `m` carries id `rid` and a keyword matching the
course text. -/
def matchedIn (c : Course) (m : List (String × List String)) (rid : String) : Bool :=
  m.any (fun e => decide (e.1 = rid) && e.2.any (fun kw => substrB kw (courseText c)))

/-- Whether the linker's keyword mapping matches course `c` for id `rid`. -/
def matchedB (c : Course) (rid : String) : Bool :=
  matchedIn c keywordMapping rid

theorem addSet_mem (l : List String) (x y : String) :
    x ∈ addSet l y ↔ x ∈ l ∨ x = y := by
  by_cases h : y ∈ l
  · simp only [addSet, if_pos h]
    exact ⟨Or.inl, fun hor => hor.elim id (fun he => he ▸ h)⟩
  · simp [addSet, if_neg h]

theorem addSet_idem (l : List String) (x : String) :
    addSet (addSet l x) x = addSet l x := by
  by_cases h : x ∈ l
  · simp [addSet, h]
  · simp [addSet, h]

theorem map_eq_self_of {α : Type} (l : List α) (f : α → α)
    (h : ∀ a ∈ l, f a = a) : l.map f = l := by
  induction l with
  | nil => rfl
  | cons a t ih =>
    rw [List.map_cons, h a (List.mem_cons_self a t),
      ih (fun a ha => h a (List.mem_cons_of_mem _ ha))]

theorem addToFirstReq_of_nodup (reqs : List Requirement) (rid cid : String)
    (hN : (reqs.map Requirement.id).Nodup) :
    addToFirstReq reqs rid cid
      = reqs.map (fun r => if r.id = rid
          then { r with satisfied_by := addSet r.satisfied_by cid } else r) := by
  induction reqs with
  | nil => rfl
  | cons r rest ih =>
    simp only [List.map_cons, List.nodup_cons] at hN
    by_cases h : r.id = rid
    · simp only [addToFirstReq, if_pos h, List.map_cons]
      congr 1
      refine (map_eq_self_of rest _ ?_).symm
      intro r' hr'
      have : r'.id ≠ rid := fun he =>
        hN.1 (h ▸ he ▸ List.mem_map_of_mem Requirement.id hr')
      simp [this]
    · simp only [addToFirstReq, if_neg h, List.map_cons, ih hN.2]

theorem linkFold_fst_mem (c : Course) (m : List (String × List String)) :
    ∀ (st : Course × List Requirement) (rid : String),
      (rid ∈ (m.foldl (linkStep c) st).1.satisfies
        ↔ rid ∈ st.1.satisfies ∨ matchedIn c m rid = true) := by
  induction m with
  | nil => intro st rid; simp [matchedIn]
  | cons e m' ih =>
    intro st rid
    rw [List.foldl_cons]
    by_cases hm : e.2.any (fun kw => substrB kw (courseText c)) = true
    · rw [show linkStep c st e
          = ({ st.1 with satisfies := addSet st.1.satisfies e.1 },
             addToFirstReq st.2 e.1 c.id) from by simp [linkStep, hm]]
      rw [ih]
      simp only [addSet_mem, matchedIn, List.any_cons, hm, Bool.and_true,
        Bool.or_eq_true, decide_eq_true_eq]
      constructor
      · rintro ((h | h) | h)
        · exact Or.inl h
        · exact Or.inr (Or.inl h.symm)
        · exact Or.inr (Or.inr h)
      · rintro (h | (h | h))
        · exact Or.inl (Or.inl h)
        · exact Or.inl (Or.inr h.symm)
        · exact Or.inr h
    · rw [show linkStep c st e = st from by simp [linkStep, hm]]
      rw [ih]
      simp only [matchedIn, List.any_cons, Bool.or_eq_true, Bool.and_eq_true,
        decide_eq_true_eq]
      constructor
      · rintro (h | h)
        · exact Or.inl h
        · exact Or.inr (Or.inr h)
      · rintro (h | (⟨_, hk⟩ | h))
        · exact Or.inl h
        · exact absurd hk hm
        · exact Or.inr h

theorem linkFold_fst_indep (c : Course) (m : List (String × List String)) :
    ∀ (st₁ st₂ : Course × List Requirement), st₁.1 = st₂.1 →
      (m.foldl (linkStep c) st₁).1 = (m.foldl (linkStep c) st₂).1 := by
  induction m with
  | nil => intro st₁ st₂ h; exact h
  | cons e m' ih =>
    intro st₁ st₂ h
    rw [List.foldl_cons, List.foldl_cons]
    refine ih _ _ ?_
    by_cases hm : e.2.any (fun kw => substrB kw (courseText c)) = true
    · simp [linkStep, hm, h]
    · simp [linkStep, hm, h]

theorem linkFold_fst_id (c : Course) (m : List (String × List String)) :
    ∀ (st : Course × List Requirement), (m.foldl (linkStep c) st).1.id = st.1.id := by
  induction m with
  | nil => intro st; rfl
  | cons e m' ih =>
    intro st
    rw [List.foldl_cons]
    rw [ih]
    by_cases hm : e.2.any (fun kw => substrB kw (courseText c)) = true
    · simp [linkStep, hm]
    · simp [linkStep, hm]

/-- The course as the linker leaves it (its requirement-side state does not
influence the course's own update). -/
def tagCourse (c : Course) : Course := (linkOne [] c).1

theorem tagCourse_id (c : Course) : (tagCourse c).id = c.id :=
  linkFold_fst_id c keywordMapping (c, [])

theorem tagCourse_satisfies (c : Course) (rid : String) :
    rid ∈ (tagCourse c).satisfies ↔ rid ∈ c.satisfies ∨ matchedB c rid = true :=
  linkFold_fst_mem c keywordMapping (c, []) rid

theorem link_fst (courses : List Course) (reqs : List Requirement) :
    (link_courses_to_requirements courses reqs).1 = courses.map tagCourse := by
  have go : ∀ (cs : List Course) (done : List Course) (rs : List Requirement),
      (cs.foldl (fun st c =>
        let res := linkOne st.2 c
        (st.1 ++ [res.1], res.2)) (done, rs)).1 = done ++ cs.map tagCourse := by
    intro cs
    induction cs with
    | nil => intro done rs; simp
    | cons c rest ih =>
      intro done rs
      rw [List.foldl_cons]
      show (rest.foldl _ (done ++ [(linkOne rs c).1], (linkOne rs c).2)).1 = _
      rw [ih]
      have : (linkOne rs c).1 = tagCourse c :=
        linkFold_fst_indep c keywordMapping (c, rs) (c, []) rfl
      simp [this, List.append_assoc]
  simpa using go courses [] reqs

/-- Requirement-side evolution of the linker's inner fold, as a tuple-free
recursion (the course component never feeds back into it). -/
def linkSnd (c : Course) (m : List (String × List String))
    (rs : List Requirement) : List Requirement :=
  m.foldl (fun rs e =>
    if e.2.any (fun kw => substrB kw (courseText c)) then addToFirstReq rs e.1 c.id
    else rs) rs

theorem linkFold_snd_eq (c : Course) (m : List (String × List String)) :
    ∀ (st : Course × List Requirement),
      (m.foldl (linkStep c) st).2 = linkSnd c m st.2 := by
  induction m with
  | nil => intro st; rfl
  | cons e m' ih =>
    intro st
    rw [List.foldl_cons]
    show (m'.foldl (linkStep c) (linkStep c st e)).2 = _
    rw [ih (linkStep c st e)]
    unfold linkSnd
    rw [List.foldl_cons]
    by_cases hm : e.2.any (fun kw => substrB kw (courseText c)) = true
    · simp [linkStep, hm]
    · simp [linkStep, hm]

/-- The per-requirement update the linker performs for course `c`. -/
def updSat (c : Course) (r : Requirement) : Requirement :=
  { r with satisfied_by := addSet r.satisfied_by c.id }

theorem updSat_id (c : Course) (r : Requirement) : (updSat c r).id = r.id := rfl

theorem linkSnd_of_nodup (c : Course) (m : List (String × List String)) :
    ∀ (rs : List Requirement), ((rs.map Requirement.id).Nodup) →
      linkSnd c m rs = rs.map (fun r => if matchedIn c m r.id then updSat c r else r) := by
  induction m with
  | nil =>
    intro rs _
    rw [show linkSnd c [] rs = rs from rfl]
    refine (map_eq_self_of _ _ ?_).symm
    intro r _
    simp [matchedIn]
  | cons e m' ih =>
    intro rs hN
    by_cases hm : e.2.any (fun kw => substrB kw (courseText c)) = true
    · have step : linkSnd c (e :: m') rs = linkSnd c m' (addToFirstReq rs e.1 c.id) := by
        unfold linkSnd
        rw [List.foldl_cons, if_pos hm]
      have hafr : addToFirstReq rs e.1 c.id
          = rs.map (fun r => if r.id = e.1 then updSat c r else r) := by
        rw [addToFirstReq_of_nodup rs e.1 c.id hN]; rfl
      have hids : ((rs.map (fun r => if r.id = e.1 then updSat c r else r)).map
          Requirement.id) = rs.map Requirement.id := by
        rw [List.map_map]
        refine List.map_congr_left ?_
        intro r _
        by_cases h : r.id = e.1
        · simp [h, updSat]
        · simp [h]
      rw [step, hafr, ih _ (by rw [hids]; exact hN), List.map_map]
      refine List.map_congr_left ?_
      intro r _
      have hcons : matchedIn c (e :: m') r.id
          = (decide (e.1 = r.id) || matchedIn c m' r.id) := by
        simp [matchedIn, List.any_cons, hm]
      by_cases he : r.id = e.1
      · have h1 : (if r.id = e.1 then updSat c r else r) = updSat c r := if_pos he
        have h2 : matchedIn c (e :: m') r.id = true := by
          rw [hcons]; simp [he]
        by_cases hm' : matchedIn c m' r.id = true
        · simp only [Function.comp_apply, h1, h2, if_pos]
          have : matchedIn c m' (updSat c r).id = true := by rw [updSat_id]; exact hm'
          rw [if_pos this]
          show updSat c (updSat c r) = updSat c r
          simp [updSat, addSet_idem]
        · simp only [Function.comp_apply, h1, h2, if_pos]
          have : ¬ matchedIn c m' (updSat c r).id = true := by rw [updSat_id]; exact hm'
          rw [if_neg this]
      · have h1 : (if r.id = e.1 then updSat c r else r) = r := if_neg he
        have hne : ¬ (e.1 = r.id) := fun h => he (Eq.symm h)
        have h2 : matchedIn c (e :: m') r.id = matchedIn c m' r.id := by
          rw [hcons]
          simp [hne]
        simp only [Function.comp_apply, h1, h2]
    · have step : linkSnd c (e :: m') rs = linkSnd c m' rs := by
        unfold linkSnd
        rw [List.foldl_cons, if_neg hm]
      rw [step, ih rs hN]
      refine List.map_congr_left ?_
      intro r _
      have hcons : matchedIn c (e :: m') r.id = matchedIn c m' r.id := by
        simp [matchedIn, List.any_cons, hm]
      rw [hcons]

theorem link_snd_proj (courses : List Course) (reqs : List Requirement) :
    (link_courses_to_requirements courses reqs).2
      = courses.foldl (fun rs c => linkSnd c keywordMapping rs) reqs := by
  have go : ∀ (cs : List Course) (done : List Course) (rs : List Requirement),
      (cs.foldl (fun st c =>
        let res := linkOne st.2 c
        (st.1 ++ [res.1], res.2)) (done, rs)).2
        = cs.foldl (fun rs c => linkSnd c keywordMapping rs) rs := by
    intro cs
    induction cs with
    | nil => intro done rs; rfl
    | cons c rest ih =>
      intro done rs
      rw [List.foldl_cons, List.foldl_cons]
      show (rest.foldl _ (done ++ [(linkOne rs c).1], (linkOne rs c).2)).2 = _
      rw [ih]
      have : (linkOne rs c).2 = linkSnd c keywordMapping rs :=
        linkFold_snd_eq c keywordMapping (c, rs)
      rw [this]
  exact go courses [] reqs

/-- The `satisfied_by` list a requirement id accumulates while the linker
walks the course list. -/
def accSat (courses : List Course) (rid : String) (init : List String) : List String :=
  courses.foldl (fun sb c => if matchedB c rid then addSet sb c.id else sb) init

theorem link_snd_of_nodup (courses : List Course) :
    ∀ (reqs : List Requirement), ((reqs.map Requirement.id).Nodup) →
      courses.foldl (fun rs c => linkSnd c keywordMapping rs) reqs
        = reqs.map (fun r =>
            { r with satisfied_by := accSat courses r.id r.satisfied_by }) := by
  induction courses with
  | nil =>
    intro reqs _
    rw [List.foldl_nil]
    refine (map_eq_self_of _ _ ?_).symm
    intro r _
    rfl
  | cons c cs ih =>
    intro reqs hN
    rw [List.foldl_cons]
    rw [linkSnd_of_nodup c keywordMapping reqs hN]
    have hids : ((reqs.map (fun r =>
        if matchedIn c keywordMapping r.id then updSat c r else r)).map Requirement.id)
          = reqs.map Requirement.id := by
      rw [List.map_map]
      refine List.map_congr_left ?_
      intro r _
      by_cases h : matchedIn c keywordMapping r.id = true
      · simp [h, updSat]
      · simp [h]
    rw [ih _ (by rw [hids]; exact hN), List.map_map]
    refine List.map_congr_left ?_
    intro r _
    show (fun r' => { r' with satisfied_by := accSat cs r'.id r'.satisfied_by })
        (if matchedIn c keywordMapping r.id then updSat c r else r)
      = { r with satisfied_by := accSat (c :: cs) r.id r.satisfied_by }
    have hacc : accSat (c :: cs) r.id r.satisfied_by
        = accSat cs r.id (if matchedB c r.id then addSet r.satisfied_by c.id
            else r.satisfied_by) := by
      unfold accSat
      rw [List.foldl_cons]
    by_cases h : matchedIn c keywordMapping r.id = true
    · have hB : matchedB c r.id = true := h
      rw [if_pos h, hacc, if_pos hB]
      rfl
    · have hB : ¬ matchedB c r.id = true := h
      rw [if_neg h, hacc, if_neg hB]

theorem accSat_mem (courses : List Course) (rid : String) :
    ∀ (init : List String) (x : String),
      (x ∈ accSat courses rid init
        ↔ x ∈ init ∨ ∃ c ∈ courses, matchedB c rid = true ∧ c.id = x) := by
  induction courses with
  | nil => intro init x; simp [accSat]
  | cons c cs ih =>
    intro init x
    have hcons : accSat (c :: cs) rid init
        = accSat cs rid (if matchedB c rid then addSet init c.id else init) := by
      unfold accSat
      rw [List.foldl_cons]
    rw [hcons]
    by_cases hm : matchedB c rid = true
    · rw [if_pos hm, ih]
      simp only [addSet_mem, List.mem_cons]
      constructor
      · rintro ((h | h) | ⟨c₀, hc₀, hm₀, hx₀⟩)
        · exact Or.inl h
        · exact Or.inr ⟨c, Or.inl rfl, hm, h.symm⟩
        · exact Or.inr ⟨c₀, Or.inr hc₀, hm₀, hx₀⟩
      · rintro (h | ⟨c₀, (rfl | hc₀), hm₀, hx₀⟩)
        · exact Or.inl (Or.inl h)
        · exact Or.inl (Or.inr hx₀.symm)
        · exact Or.inr ⟨c₀, hc₀, hm₀, hx₀⟩
    · rw [if_neg hm, ih]
      simp only [List.mem_cons]
      constructor
      · rintro (h | ⟨c₀, hc₀, hm₀, hx₀⟩)
        · exact Or.inl h
        · exact Or.inr ⟨c₀, Or.inr hc₀, hm₀, hx₀⟩
      · rintro (h | ⟨c₀, (rfl | hc₀), hm₀, hx₀⟩)
        · exact Or.inl h
        · exact absurd hm₀ hm
        · exact Or.inr ⟨c₀, hc₀, hm₀, hx₀⟩

/-- Claim C2 (amended): starting from empty `satisfies` / `satisfied_by`
sets, and with course ids and requirement ids each pairwise distinct, the
keyword linker leaves the two sides mutually consistent: a course id lies
in a requirement's `satisfied_by` exactly when the requirement's id lies in
that course's `satisfies`. -/
theorem C2_link_bidirectional (courses : List Course) (reqs : List Requirement)
    (hc0 : ∀ c ∈ courses, c.satisfies = [])
    (hr0 : ∀ r ∈ reqs, r.satisfied_by = [])
    (hcN : (courses.map Course.id).Nodup)
    (hrN : (reqs.map Requirement.id).Nodup) :
    ∀ c' ∈ (link_courses_to_requirements courses reqs).1,
    ∀ r' ∈ (link_courses_to_requirements courses reqs).2,
      (c'.id ∈ r'.satisfied_by ↔ r'.id ∈ c'.satisfies) := by
  intro c' hc' r' hr'
  rw [link_fst] at hc'
  rcases List.mem_map.mp hc' with ⟨c, hcmem, rfl⟩
  rw [link_snd_proj, link_snd_of_nodup courses reqs hrN] at hr'
  rcases List.mem_map.mp hr' with ⟨r, hrmem, rfl⟩
  show (tagCourse c).id ∈ accSat courses r.id r.satisfied_by ↔ r.id ∈ (tagCourse c).satisfies
  rw [tagCourse_id, accSat_mem, hr0 r hrmem, tagCourse_satisfies, hc0 c hcmem]
  simp only [List.not_mem_nil, false_or]
  constructor
  · rintro ⟨c₀, hc₀, hm₀, hx₀⟩
    have : c₀ = c := List.inj_on_of_nodup_map hcN hc₀ hcmem hx₀
    exact this ▸ hm₀
  · intro h
    exact ⟨c, hcmem, h, rfl⟩

/-- Course with empty `satisfies`, used by the linker witnesses. -/
def courseLink : Course :=
  { id := "BIBL101_Fall2025_Smith", code := "BIBL 101", title := "Intro to Bible",
    faculty := "Dr. Smith", credits := 3, days := "MW", time := "10:00-11:30",
    semester := "Fall 2025", delivery_mode := "In Person", description := "", satisfies := [] }

/-- Witness for C2 at a concrete course and requirement list, instantiated
at the linked course and requirement the lists produce. -/
theorem C2_witness :
    ((link_courses_to_requirements [courseLink] [reqBible]).1.headD courseLink).id
        ∈ ((link_courses_to_requirements [courseLink] [reqBible]).2.headD reqBible).satisfied_by
      ↔ ((link_courses_to_requirements [courseLink] [reqBible]).2.headD reqBible).id
        ∈ ((link_courses_to_requirements [courseLink] [reqBible]).1.headD courseLink).satisfies :=
  C2_link_bidirectional [courseLink] [reqBible]
    (by decide) (by decide) (by decide) (by decide)
    ((link_courses_to_requirements [courseLink] [reqBible]).1.headD courseLink) (by decide)
    ((link_courses_to_requirements [courseLink] [reqBible]).2.headD reqBible) (by decide)

/-- Second requirement object carrying the same id `bible`. -/
def reqBibleDup : Requirement :=
  { id := "bible", label := "Bible (duplicate)", min_credits := 0, satisfied_by := [] }

/-- Counterexample to C2 as frozen: with two requirement objects sharing
the id `bible` (both starting empty), the linker updates only the first of
them, so the second requirement's `satisfied_by` stays empty while the
course's `satisfies` does contain `bible` — the relation is one-sided. -/
theorem C2_counterexample :
    ¬ (∀ c' ∈ (link_courses_to_requirements [courseLink] [reqBible, reqBibleDup]).1,
       ∀ r' ∈ (link_courses_to_requirements [courseLink] [reqBible, reqBibleDup]).2,
        (c'.id ∈ r'.satisfied_by ↔ r'.id ∈ c'.satisfies)) := by
  decide

/-! ## Table-driven document parser (scripts/parsers.py)

Python string primitives are modelled over character lists so that every
definition evaluates by kernel reduction. -/

/-- Python `str.strip()`: drop leading and trailing whitespace. -/
def pyStrip (s : String) : String :=
  String.mk (((s.toList.dropWhile Char.isWhitespace).reverse.dropWhile
    Char.isWhitespace).reverse)

/-- Python `str.rstrip()`: drop trailing whitespace. -/
def pyRStrip (s : String) : String :=
  String.mk ((s.toList.reverse.dropWhile Char.isWhitespace).reverse)

/-- Python `str.lower()`: characterwise lowercasing. -/
def pyLower (s : String) : String := String.mk (s.toList.map Char.toLower)

/-- Python `str.endswith(suffix)`. -/
def pyEndsWith (s suffix : String) : Bool :=
  suffix.toList.isSuffixOf s.toList

/-- Python `str.split(sep)` for a one-character separator
(empty fragments preserved). -/
def splitOnCharAux (sep : Char) : List Char → List (List Char)
  | [] => [[]]
  | c :: rest =>
    match splitOnCharAux sep rest with
    | [] => [[]]
    | h :: t => if c = sep then [] :: h :: t else (c :: h) :: t

def splitOnChar (sep : Char) (s : String) : List String :=
  (splitOnCharAux sep s.toList).map (fun cs => String.mk cs)

/-- `os.path.basename` on POSIX paths: the part after the last slash. -/
def basename (p : String) : String := (splitOnChar '/' p).getLastD ""

/-- `os.path.join(dir, name)` for a relative `name`. -/
def joinPath (a b : String) : String := a ++ "/" ++ b

/-- scripts/parsers.py `DATA_DIR` (the default, no environment override). -/
def DATA_DIR : String := "./_context"

/-- scripts/parsers.py `REQ_MAP`: course-code prefix to requirement
categories. -/
def REQ_MAP : List (String × List String) :=
  [("BX", ["Bible/Sacred Texts"]),
   ("BIBL", ["Bible/Sacred Texts"]),
   ("HB", ["Bible/Sacred Texts"]),
   ("NT", ["Bible/Sacred Texts"]),
   ("CH", ["Historical Studies"]),
   ("HS", ["Historical Studies"]),
   ("PR", ["Practical Theology"]),
   ("PT", ["Practical Theology"]),
   ("TH", ["Theology & Ethics"]),
   ("ETH", ["Theology & Ethics"]),
   ("IE", ["Interreligious Engagement"]),
   ("SW", ["MSSW Core Courses"])]

/-- `re.split(r"\s", s)[0]`: the characters before the first whitespace
character. -/
def firstTok (s : String) : String :=
  String.mk (s.toList.takeWhile (fun c => ¬ c.isWhitespace))

/-- Course dict assembled by `row_to_course` (`fields` is attached later by
the requirement tally, so it starts empty). -/
structure PCourse where
  code : String
  title : String
  credits : ℚ
  professor : String
  schedule : String
  description : String
  fields : List String
deriving DecidableEq

/-- Python `defaultdict(float)` increment `totals[f] += q`. -/
def addTo : List (String × ℚ) → String → ℚ → List (String × ℚ)
  | [], k, q => [(k, q)]
  | e :: rest, k, q =>
    if e.1 = k then (e.1, e.2 + q) :: rest else e :: addTo rest k q

/-- The credit total recorded for a category (0 when absent, as for
`defaultdict(float)`). -/
def totalsVal (d : List (String × ℚ)) (k : String) : ℚ := (dictGet? d k).getD 0

/-- scripts/parsers.py `parse_file`, requirement-mapping and credit-tally
step: each course's `fields` is `REQ_MAP.get(prefix, [])` for the prefix
`re.split(r"\s", code)[0]`, and its credits are added to each such
category's running total. -/
def tagAndTally (courses : List PCourse) : List PCourse × List (String × ℚ) :=
  courses.foldl (fun acc c =>
    let pfx := firstTok c.code
    let fields := (dictGet? REQ_MAP pfx).getD []
    let c' := { c with fields := fields }
    (acc.1 ++ [c'], fields.foldl (fun t f => addTo t f c'.credits) acc.2)) ([], [])

/-- Spec wording of C3: the leading alphabetic run of the course code
before the first digit. -/
def alphaPrefix (code : String) : String :=
  String.mk (code.toList.takeWhile Char.isAlpha)

theorem addTo_val_self (d : List (String × ℚ)) (k : String) (q : ℚ) :
    totalsVal (addTo d k q) k = totalsVal d k + q := by
  induction d with
  | nil => simp [addTo, totalsVal, dictGet?, List.find?]
  | cons e rest ih =>
    by_cases h : e.1 = k
    · simp [addTo, h, totalsVal, dictGet?, List.find?]
    · simp only [addTo, if_neg h]
      rw [totalsVal, totalsVal, dictGet?_cons, dictGet?_cons, if_neg h, if_neg h]
      exact ih

theorem addTo_val_ne (d : List (String × ℚ)) (k k' : String) (q : ℚ) (h : k' ≠ k) :
    totalsVal (addTo d k q) k' = totalsVal d k' := by
  induction d with
  | nil =>
    simp [addTo, totalsVal, dictGet?, List.find?, Ne.symm h]
  | cons e rest ih =>
    by_cases he : e.1 = k
    · rw [show addTo (e :: rest) k q = (e.1, e.2 + q) :: rest from by simp [addTo, he]]
      rw [totalsVal, totalsVal, dictGet?_cons, dictGet?_cons]
      have : ¬ e.1 = k' := fun hk => h (hk.symm.trans he)
      rw [if_neg this, if_neg this]
    · rw [show addTo (e :: rest) k q = e :: addTo rest k q from by simp [addTo, he]]
      rw [totalsVal, totalsVal, dictGet?_cons, dictGet?_cons]
      by_cases he' : e.1 = k'
      · rw [if_pos he', if_pos he']
      · rw [if_neg he', if_neg he']
        exact ih

theorem foldl_addTo_count (fields : List String) (q : ℚ) (cat : String) :
    ∀ (t : List (String × ℚ)),
      totalsVal (fields.foldl (fun t f => addTo t f q) t) cat
        = totalsVal t cat + (fields.count cat : ℚ) * q := by
  induction fields with
  | nil => intro t; simp
  | cons f fs ih =>
    intro t
    rw [List.foldl_cons, ih]
    by_cases h : f = cat
    · subst h
      rw [addTo_val_self]
      rw [List.count_cons_self]
      push_cast
      ring
    · rw [addTo_val_ne _ _ _ _ (Ne.symm h)]
      rw [List.count_cons_of_ne (fun he => h he.symm)]

/-- The fields the tally attaches to a course. -/
def fieldsOf (c : PCourse) : List String := (dictGet? REQ_MAP (firstTok c.code)).getD []

theorem tagAndTally_go (courses : List PCourse) :
    ∀ (acc : List PCourse × List (String × ℚ)),
      (courses.foldl (fun acc c =>
        let pfx := firstTok c.code
        let fields := (dictGet? REQ_MAP pfx).getD []
        let c' := { c with fields := fields }
        (acc.1 ++ [c'], fields.foldl (fun t f => addTo t f c'.credits) acc.2)) acc)
      = (acc.1 ++ courses.map (fun c => { c with fields := fieldsOf c }),
         (courses.foldl (fun t c =>
           (fieldsOf c).foldl (fun t f => addTo t f c.credits) t) acc.2)) := by
  induction courses with
  | nil => intro acc; simp
  | cons c cs ih =>
    intro acc
    rw [List.foldl_cons, ih]
    simp [fieldsOf, List.append_assoc]

theorem foldl_tally_val (courses : List PCourse) (cat : String) :
    ∀ (t : List (String × ℚ)),
      totalsVal (courses.foldl (fun t c =>
        (fieldsOf c).foldl (fun t f => addTo t f c.credits) t) t) cat
      = totalsVal t cat
        + (courses.map (fun c => ((fieldsOf c).count cat : ℚ) * c.credits)).sum := by
  induction courses with
  | nil => intro t; simp
  | cons c cs ih =>
    intro t
    rw [List.foldl_cons, ih, foldl_addTo_count, List.map_cons, List.sum_cons]
    ring

theorem reqMap_values_nodup (pfx : String) :
    ((dictGet? REQ_MAP pfx).getD []).Nodup := by
  cases h : dictGet? REQ_MAP pfx with
  | none => simp
  | some v =>
    simp only [Option.getD_some]
    rcases hf : (REQ_MAP.find? (fun e => e.1 = pfx)) with _ | e
    · rw [dictGet?, hf] at h; cases h
    · rw [dictGet?, hf] at h
      have hev : e.2 = v := by simpa using h
      have hmem : e ∈ REQ_MAP := List.mem_of_find?_eq_some hf
      rw [← hev]
      have hall : ∀ x ∈ REQ_MAP, (Prod.snd x).Nodup := by decide
      exact hall e hmem

/-- Claim C3 (amended): the requirement tagger derives the lookup prefix as
the FIRST WHITESPACE-DELIMITED TOKEN of the course code (`"BIBL"` from
`"BIBL 101"`, but the whole `"SW501"` from `"SW501"`), looks it up in
`REQ_MAP`, attaches the found categories to the course, and adds the
course's credits to each such category's total. -/
theorem C3_tag_and_tally (courses : List PCourse) (cat : String) :
    (tagAndTally courses).1
        = courses.map (fun c => { c with fields := fieldsOf c })
    ∧ totalsVal (tagAndTally courses).2 cat
        = ((courses.filter (fun c => cat ∈ fieldsOf c)).map PCourse.credits).sum := by
  unfold tagAndTally
  rw [tagAndTally_go courses ([], [])]
  refine ⟨by simp, ?_⟩
  simp only
  rw [foldl_tally_val]
  have hz : totalsVal [] cat = 0 := by simp [totalsVal, dictGet?, List.find?]
  rw [hz, zero_add]
  induction courses with
  | nil => simp
  | cons c cs ih =>
    rw [List.map_cons, List.sum_cons, List.filter_cons]
    by_cases h : cat ∈ fieldsOf c
    · rw [if_pos (by simpa using h)]
      rw [List.map_cons, List.sum_cons]
      have hnd : (fieldsOf c).Nodup := reqMap_values_nodup (firstTok c.code)
      have h1 : ((fieldsOf c).count cat : ℚ) = 1 := by
        rw [List.count_eq_one_of_mem hnd h]
        norm_num
      rw [h1, one_mul, ih]
    · rw [if_neg (by simpa using h)]
      have h0 : ((fieldsOf c).count cat : ℚ) = 0 := by
        rw [List.count_eq_zero.mpr h]
        norm_num
      rw [h0, zero_mul, zero_add, ih]

/-- Course whose code has no whitespace between prefix and number. -/
def swCourse : PCourse :=
  { code := "SW501", title := "Social Work Practice I", credits := 3, professor := "",
    schedule := "", description := "", fields := [] }

/-- Counterexample to C3 as frozen: for code `"SW501"` the code's leading
alphabetic run is `"SW"`, which `REQ_MAP` maps to `["MSSW Core Courses"]`,
yet the tagger attaches no category and tallies nothing, because it looks
up the whole whitespace-token `"SW501"`. -/
theorem C3_counterexample :
    (tagAndTally [swCourse]).1.map PCourse.fields = [[]]
    ∧ (dictGet? REQ_MAP (alphaPrefix swCourse.code)).getD [] = ["MSSW Core Courses"]
    ∧ (tagAndTally [swCourse]).2 = [] := by
  decide

/-! ## Row-to-course conversion (scripts/parsers.py `row_to_course`) -/

/-- Errors the parser pipeline can raise (`FileNotFoundError`,
`ValueError("Unsupported file format")`, reader-level failures,
`RuntimeError` for a missing header or column, `ValueError` from
`float(...)`). -/
inductive ParseError : Type
  | fileNotFound (path : String)
  | unsupportedFormat (path : String)
  | readFailure (path : String)
  | missingHeader
  | missingColumn (name : String)
  | valueError (token : String)
deriving DecidableEq

def isOkE {ε α : Type} : Except ε α → Bool
  | .ok _ => true
  | .error _ => false

/-- The digits of a numeral as a natural number. -/
def digitsVal (cs : List Char) : Nat :=
  cs.foldl (fun a c => a * 10 + (c.toNat - 48)) 0

/-- Python `float(token)` on plain decimal literals: optional sign, digits,
optional decimal point and fraction digits. Forms outside this grammar
(exponents, `inf`/`nan`, digit underscores) are treated as unparsable and
yield `none`, as does any other malformed token. -/
def pyFloat (s : String) : Option ℚ :=
  let cs := s.toList
  let sr : ℚ × List Char :=
    match cs with
    | '-' :: t => (-1, t)
    | '+' :: t => (1, t)
    | _ => (1, cs)
  let intPart := sr.2.takeWhile Char.isDigit
  let after := sr.2.dropWhile Char.isDigit
  match after with
  | [] =>
    if intPart.isEmpty then none
    else some (sr.1 * (digitsVal intPart : ℚ))
  | '.' :: frac =>
    if frac.all Char.isDigit && !(intPart.isEmpty && frac.isEmpty) then
      some (sr.1 * ((digitsVal intPart : ℚ)
        + (digitsVal frac : ℚ) / (10 : ℚ) ^ frac.length))
    else none
  | _ => none

/-- `_get(col)` inside `row_to_course`: the cell at the mapped position,
or `""` when the column is unmapped or the row is too short. -/
def rowGet (row : List String) (col_index : List (String × Nat)) (col : String) : String :=
  match dictGet? col_index col with
  | some idx => if idx < row.length then row.getD idx "" else ""
  | none => ""

/-- scripts/parsers.py `row_to_course`: credits come from
`float(re.split(r"\s", cell)[0])` when the Credits cell is non-empty
(an unparsable first token raises `ValueError`), and default to `0.0`
when the cell is empty. -/
def row_to_course (row : List String) (col_index : List (String × Nat)) :
    Except ParseError PCourse :=
  let creditsCell := rowGet row col_index "Credits"
  let creditsE : Except ParseError ℚ :=
    if creditsCell = "" then .ok 0
    else
      match pyFloat (firstTok creditsCell) with
      | some q => .ok q
      | none => .error (.valueError (firstTok creditsCell))
  creditsE.map (fun q =>
    { code := pyStrip (rowGet row col_index "Course Code"),
      title := pyStrip (rowGet row col_index "Course Title"),
      credits := q,
      professor := pyStrip (rowGet row col_index "Instructor"),
      schedule := pyStrip (rowGet row col_index "Days/Times"),
      description := pyStrip (rowGet row col_index "Description"),
      fields := [] })

/-- Claim C4 (amended): an empty or absent Credits cell degrades to credits
0.0; a non-empty cell is split on whitespace and its first token parsed as
a decimal number; but a non-empty cell whose first token fails to parse
raises a `ValueError` that aborts the row (it does not degrade to 0.0). -/
theorem C4_credits_parse (row : List String) (col_index : List (String × Nat)) :
    (rowGet row col_index "Credits" = "" →
      row_to_course row col_index = .ok
        { code := pyStrip (rowGet row col_index "Course Code"),
          title := pyStrip (rowGet row col_index "Course Title"),
          credits := 0,
          professor := pyStrip (rowGet row col_index "Instructor"),
          schedule := pyStrip (rowGet row col_index "Days/Times"),
          description := pyStrip (rowGet row col_index "Description"),
          fields := [] })
    ∧ (∀ q, rowGet row col_index "Credits" ≠ "" →
        pyFloat (firstTok (rowGet row col_index "Credits")) = some q →
        row_to_course row col_index = .ok
          { code := pyStrip (rowGet row col_index "Course Code"),
            title := pyStrip (rowGet row col_index "Course Title"),
            credits := q,
            professor := pyStrip (rowGet row col_index "Instructor"),
            schedule := pyStrip (rowGet row col_index "Days/Times"),
            description := pyStrip (rowGet row col_index "Description"),
            fields := [] })
    ∧ (rowGet row col_index "Credits" ≠ "" →
        pyFloat (firstTok (rowGet row col_index "Credits")) = none →
        row_to_course row col_index
          = .error (.valueError (firstTok (rowGet row col_index "Credits")))) := by
  refine ⟨?_, ?_, ?_⟩
  · intro h
    simp [row_to_course, h, Except.map]
  · intro q h hq
    simp [row_to_course, h, hq, Except.map]
  · intro h hq
    simp [row_to_course, h, hq, Except.map]

/-- Column mapping used by the row-conversion witnesses. -/
def colIdx₀ : List (String × Nat) :=
  [("Course Code", 0), ("Course Title", 1), ("Credits", 2)]

/-- Witness for C4: an empty Credits cell gives credits 0, and cell
`"3 credits"` parses its first token to 3. -/
theorem C4_witness :
    row_to_course ["BIBL 101", "Intro", ""] colIdx₀ = .ok
      { code := "BIBL 101", title := "Intro", credits := 0, professor := "",
        schedule := "", description := "", fields := [] }
    ∧ row_to_course ["BIBL 101", "Intro", "3 credits"] colIdx₀ = .ok
      { code := "BIBL 101", title := "Intro", credits := 3, professor := "",
        schedule := "", description := "", fields := [] } := by
  have h := C4_credits_parse ["BIBL 101", "Intro", ""] colIdx₀
  have h' := C4_credits_parse ["BIBL 101", "Intro", "3 credits"] colIdx₀
  constructor
  · have := h.1 (by decide)
    rw [this]
    rfl
  · have hq : pyFloat (firstTok (rowGet ["BIBL 101", "Intro", "3 credits"] colIdx₀ "Credits"))
        = some 3 := by
      have htok : firstTok (rowGet ["BIBL 101", "Intro", "3 credits"] colIdx₀ "Credits")
          = "3" := by decide
      have h1 : pyFloat "3" = some ((1 : ℚ) * ((digitsVal ['3'] : ℚ))) := rfl
      have h2 : digitsVal ['3'] = 3 := by decide
      rw [htok, h1, h2]
      norm_num
    have := h'.2.1 3 (by decide) hq
    rw [this]
    rfl

/-- Counterexample to C4 as frozen: the non-empty Credits cell `"TBD"` has
an unparsable first token; the row conversion raises a `ValueError` instead
of degrading to credits 0.0. -/
theorem C4_counterexample :
    row_to_course ["BIBL 101", "Intro", "TBD"] colIdx₀
      = .error (.valueError "TBD")
    ∧ isOkE (row_to_course ["BIBL 101", "Intro", "TBD"] colIdx₀) = false := by
  exact ⟨rfl, rfl⟩

/-! ## Header/column resolver (scripts/parsers.py `_build_col_index`) -/

/-- scripts/parsers.py `_HEADER_KEYWORDS` in dict insertion order. -/
def _HEADER_KEYWORDS : List (String × String) :=
  [("course code", "Course Code"),
   ("course title", "Course Title"),
   ("credits", "Credits"),
   ("instructor", "Instructor"),
   ("days", "Days/Times"),
   ("days/times", "Days/Times"),
   ("description", "Description")]

/-- The canonical field a header cell resolves to: the first keyword (in
table order) contained in the stripped, lowercased cell — the inner loop
breaks at the first match. -/
def cellCanon (cell : String) : Option String :=
  (_HEADER_KEYWORDS.find? (fun kv => substrB kv.1 (pyLower (pyStrip cell)))).map (·.2)

/-- The mapping-building loop of `_build_col_index`:
`mapping[canonical] = idx` for each matching cell in order. -/
def buildColMapping (header_row : List String) : List (String × Nat) :=
  (header_row.enum).foldl (fun m e =>
    match cellCanon e.2 with
    | some canonical => dictSet m canonical e.1
    | none => m) []

/-- scripts/parsers.py `_build_col_index`: build the mapping, then require
Course Code, Course Title and Credits (checked in that order). -/
def _build_col_index (header_row : List String) :
    Except ParseError (List (String × Nat)) :=
  let mapping := buildColMapping header_row
  if (dictGet? mapping "Course Code").isNone then .error (.missingColumn "Course Code")
  else if (dictGet? mapping "Course Title").isNone then
    .error (.missingColumn "Course Title")
  else if (dictGet? mapping "Credits").isNone then .error (.missingColumn "Credits")
  else .ok mapping

/-- Spec-side reading of C5 as amended: the position recorded for a
canonical field is that of the LAST header cell resolving to it. -/
def lastMatchIdx (header_row : List String) (canonical : String) : Option Nat :=
  ((header_row.enum.reverse).find? (fun e => cellCanon e.2 = some canonical)).map (·.1)

theorem buildColMapping_go (l : List (Nat × String)) :
    ∀ (m : List (String × Nat)) (canonical : String),
      dictGet? (l.foldl (fun m e =>
        match cellCanon e.2 with
        | some c => dictSet m c e.1
        | none => m) m) canonical
      = match l.reverse.find? (fun e => cellCanon e.2 = some canonical) with
        | some e => some e.1
        | none => dictGet? m canonical := by
  induction l using List.reverseRecOn with
  | nil => intro m canonical; rfl
  | append_singleton l e ih =>
    intro m canonical
    rw [List.foldl_append, List.foldl_cons, List.foldl_nil]
    rw [List.reverse_append]
    simp only [List.reverse_singleton, List.singleton_append]
    cases hc : cellCanon e.2 with
    | none =>
      rw [List.find?_cons_of_neg _ (by simp [hc])]
      exact ih m canonical
    | some c =>
      by_cases hceq : c = canonical
      · subst hceq
        rw [List.find?_cons_of_pos _ (by simp [hc])]
        exact dictGet?_dictSet_self _ _ _
      · rw [List.find?_cons_of_neg _ (by simp [hc, hceq])]
        show dictGet? (dictSet (l.foldl (fun m e =>
          match cellCanon e.2 with
          | some c => dictSet m c e.1
          | none => m) m) c e.1) canonical = _
        rw [dictGet?_dictSet_ne _ _ _ _ (fun h => hceq h.symm)]
        exact ih m canonical

/-- Claim C5 (amended): each header cell is substring-matched
case-insensitively against the keyword table and the FIRST matching keyword
per cell wins (both as frozen), but for a canonical field matched by
several cells the LAST matching cell's position is recorded — a later cell
DOES overwrite an earlier mapping. -/
theorem C5_col_mapping (header : List String) (m : List (String × Nat))
    (canonical : String) (h : _build_col_index header = .ok m) :
    dictGet? m canonical = lastMatchIdx header canonical := by
  have hm : m = buildColMapping header := by
    unfold _build_col_index at h
    by_cases h1 : (dictGet? (buildColMapping header) "Course Code").isNone
    · simp [h1] at h
    · by_cases h2 : (dictGet? (buildColMapping header) "Course Title").isNone
      · simp [h1, h2] at h
      · by_cases h3 : (dictGet? (buildColMapping header) "Credits").isNone
        · simp [h1, h2, h3] at h
        · simp [h1, h2, h3] at h
          exact h.symm
  subst hm
  unfold buildColMapping lastMatchIdx
  rw [buildColMapping_go (header.enum) [] canonical]
  cases hf : (header.enum.reverse).find? (fun e => cellCanon e.2 = some canonical) with
  | none => rfl
  | some e => rfl

/-- Witness for C5 at a concrete header row. -/
theorem C5_witness :
    dictGet? [("Course Code", 0), ("Course Title", 1), ("Credits", 2)] "Credits"
      = lastMatchIdx ["course code", "course title", "credits"] "Credits" :=
  C5_col_mapping ["course code", "course title", "credits"]
    [("Course Code", 0), ("Course Title", 1), ("Credits", 2)] "Credits" rfl

/-- Counterexample to C5 as frozen: with two cells matching the keyword
`credits` the recorded position is the later cell's (3), not the first
cell's (2) — the later cell overwrites. -/
theorem C5_counterexample :
    _build_col_index ["course code", "course title", "credits", "total credits"]
      = .ok [("Course Code", 0), ("Course Title", 1), ("Credits", 3)]
    ∧ dictGet? [("Course Code", 0), ("Course Title", 1), ("Credits", 3)] "Credits"
        ≠ some 2 := by
  exact ⟨rfl, by decide⟩

/-! ## Row extractor and directory parse (scripts/parsers.py) -/

/-- One PDF page as pdfplumber exposes it: its extracted tables (a table is
a list of rows of possibly-`None` cells) and its `extract_text()` result
(`none` models a `None` return). -/
structure PdfPage where
  tables : List (List (List (Option String)))
  text : Option String
deriving DecidableEq

/-- Contents of a file in the data directory. `rtfFile` carries the plain
text `rtf_to_text` produces. A file whose content does not match its
extension is treated as a reader-level failure. -/
inductive FileContent : Type
  | pdfFile (pages : List PdfPage)
  | rtfFile (plainText : String)
deriving DecidableEq

/-- scripts/parsers.py `_table_rows_from_pdf`: all tables from all pages in
page order; keep rows with at least one non-empty trimmed cell; `None`
cells become `""`. -/
def _table_rows_from_pdf (pages : List PdfPage) : List (List String) :=
  pages.foldl (fun rows page =>
    page.tables.foldl (fun rows tbl =>
      tbl.foldl (fun rows r =>
        if (!r.isEmpty) && r.any (fun cell =>
              match cell with
              | some s => pyStrip s ≠ ""
              | none => false) then
          rows ++ [r.map (fun cell =>
            match cell with
            | some s => pyStrip s
            | none => "")]
        else rows) rows) rows) []

/-- `"\n".join(page.extract_text() or "" for page in pdf.pages)`. -/
def pdfAllText (pages : List PdfPage) : String :=
  String.intercalate "\n" (pages.map (fun pg => pg.text.getD ""))

/-- State machine for `re.split(r"\s{2,}", line)`: `cur` is the reversed
current fragment, `wsrun` the reversed pending whitespace run; a run of two
or more whitespace characters separates fragments, a single one stays. -/
def splitWs2Go : List Char → List Char → List Char → List (List Char)
  | cur, wsrun, [] =>
    if 2 ≤ wsrun.length then [cur.reverse, []]
    else [(wsrun ++ cur).reverse]
  | cur, wsrun, c :: rest =>
    if c.isWhitespace then splitWs2Go cur (c :: wsrun) rest
    else if 2 ≤ wsrun.length then cur.reverse :: splitWs2Go [c] [] rest
    else splitWs2Go (c :: (wsrun ++ cur)) [] rest

/-- `re.split(r"\s{2,}", line)`. -/
def splitWs2 (line : String) : List String :=
  (splitWs2Go [] [] line.toList).map (fun cs => String.mk cs)

/-- scripts/parsers.py `_fallback_rows_from_text`: split each line on runs
of two or more whitespace characters, strip the parts, drop empties, and
keep each non-empty list of parts as one row. -/
def _fallback_rows_from_text (text : String) : List (List String) :=
  (splitOnChar '\n' text).foldl (fun rows raw_line =>
    let line := pyRStrip raw_line
    let parts := (splitWs2 line).filterMap (fun p =>
      if pyStrip p ≠ "" then some (pyStrip p) else none)
    if !parts.isEmpty then rows ++ [parts] else rows) []

/-- `fname.lower().endswith((".pdf", ".rtf"))`. -/
def extOk (s : String) : Bool :=
  pyEndsWith (pyLower s) ".pdf" || pyEndsWith (pyLower s) ".rtf"

/-- scripts/parsers.py `extract_rows`: resolve only the basename inside
`DATA_DIR`, check existence, then dispatch on the lowercased extension —
PDF tables first with text fallback, RTF by text splitting, anything else
an unsupported-format error. The `fs` argument models the data directory's
contents (file name ↦ content, in `os.listdir` order). -/
def extract_rows (fs : List (String × FileContent)) (path : String) :
    Except ParseError (List (List String)) :=
  let p := joinPath DATA_DIR (basename path)
  match dictGet? fs (basename path) with
  | none => .error (.fileNotFound p)
  | some content =>
    if pyEndsWith (pyLower p) ".pdf" then
      match content with
      | .pdfFile pages =>
        let rows := _table_rows_from_pdf pages
        if !rows.isEmpty then .ok rows
        else .ok (_fallback_rows_from_text (pdfAllText pages))
      | _ => .error (.readFailure p)
    else if pyEndsWith (pyLower p) ".rtf" then
      match content with
      | .rtfFile txt => .ok (_fallback_rows_from_text txt)
      | _ => .error (.readFailure p)
    else .error (.unsupportedFormat p)

/-- scripts/parsers.py `_find_header_row`: first row whose joined lowercase
text contains both `course` and `code`. -/
def _find_header_row (rows : List (List String)) : Except ParseError Nat :=
  match rows.findIdx? (fun row =>
    let row_join := String.intercalate " " (row.map pyLower)
    substrB "course" row_join && substrB "code" row_join) with
  | some i => .ok i
  | none => .error .missingHeader

/-- Continuation-row handling: append the Description cell (or, without a
usable Description column, the whole row joined by spaces) to the current
course's description, separated by a single space. -/
def appendDesc (c : PCourse) (raw_row : List String)
    (col_index : List (String × Nat)) : PCourse :=
  let add :=
    match dictGet? col_index "Description" with
    | some di =>
      if di < raw_row.length then " " ++ raw_row.getD di ""
      else " " ++ String.intercalate " " raw_row
    | none => " " ++ String.intercalate " " raw_row
  { c with description := c.description ++ add }

/-- One data row of the assembly loop. The source mutates the course it
just appended; this is modelled by keeping the current course out of the
done list until the next course starts (the final flush happens in
`assemble`). -/
def assembleStep (col_index : List (String × Nat))
    (st : List PCourse × Option PCourse) (raw_row : List String) :
    Except ParseError (List PCourse × Option PCourse) :=
  if raw_row.isEmpty then .ok st
  else
    let codeIdx := (dictGet? col_index "Course Code").getD 0
    let course_code := if codeIdx < raw_row.length then raw_row.getD codeIdx "" else ""
    if pyStrip course_code = "" then
      match st.2 with
      | some cur => .ok (st.1, some (appendDesc cur raw_row col_index))
      | none => .ok st
    else
      (row_to_course raw_row col_index).map (fun c =>
        (st.1 ++ (match st.2 with | some prev => [prev] | none => []), some c))

def assemble (rows : List (List String)) (col_index : List (String × Nat)) :
    Except ParseError (List PCourse) := do
  let st ← rows.foldlM (assembleStep col_index) (([], none) :
    List PCourse × Option PCourse)
  return st.1 ++ (match st.2 with | some prev => [prev] | none => [])

/-- Result of `parse_file`: the tagged course dicts and the per-category
credit totals. -/
structure ParseOutput where
  courses : List PCourse
  totals : List (String × ℚ)
deriving DecidableEq

/-- scripts/parsers.py `parse_file`. -/
def parse_file (fs : List (String × FileContent)) (path : String) :
    Except ParseError ParseOutput := do
  let rows ← extract_rows fs (joinPath DATA_DIR (basename path))
  let header_idx ← _find_header_row rows
  let col_index ← _build_col_index (rows.getD header_idx [])
  let courses ← assemble (rows.drop (header_idx + 1)) col_index
  let tt := tagAndTally courses
  return { courses := tt.1, totals := tt.2 }

/-- The per-file loop of `parse_directory`: parse each `.pdf`/`.rtf` file,
collecting successes and skipping (logging) failures. -/
def collectGo (fsRead : List (String × FileContent))
    (entries : List (String × FileContent)) (acc : List ParseOutput) :
    List ParseOutput :=
  entries.foldl (fun acc e =>
    if extOk e.1 then
      match parse_file fsRead (joinPath DATA_DIR e.1) with
      | .ok d => acc ++ [d]
      | .error _ => acc
    else acc) acc

/-- Totals summed across files, course lists concatenated. -/
def aggOutputs (data : List ParseOutput) : ParseOutput :=
  let agg := data.foldl (fun (acc : List PCourse × List (String × ℚ)) d =>
    (acc.1 ++ d.courses,
     d.totals.foldl (fun t kv => addTo t kv.1 kv.2) acc.2)) ([], [])
  { courses := agg.1, totals := agg.2 }

/-- scripts/parsers.py `parse_directory` at the default data directory:
the directory listing is the filesystem model itself. -/
def parse_directory (fs : List (String × FileContent)) : ParseOutput :=
  aggOutputs (collectGo fs fs [])

theorem extract_rows_congr (F S : List (String × FileContent)) (path : String)
    (h : dictGet? F (basename path) = dictGet? S (basename path)) :
    extract_rows F path = extract_rows S path := by
  unfold extract_rows
  rw [h]

theorem parse_file_congr (F S : List (String × FileContent)) (path : String)
    (h : dictGet? F (basename (joinPath DATA_DIR (basename path)))
      = dictGet? S (basename (joinPath DATA_DIR (basename path)))) :
    parse_file F path = parse_file S path := by
  unfold parse_file
  rw [extract_rows_congr F S _ h]

theorem dictGet?_insert_ne {α : Type} (fs1 fs2 : List (String × α)) (n : String)
    (content : α) (k : String) (h : k ≠ n) :
    dictGet? (fs1 ++ (n, content) :: fs2) k = dictGet? (fs1 ++ fs2) k := by
  induction fs1 with
  | nil =>
    rw [List.nil_append, List.nil_append, dictGet?_cons, if_neg (fun he => h he.symm)]
  | cons e rest ih =>
    rw [List.cons_append, List.cons_append, dictGet?_cons, dictGet?_cons]
    by_cases he : e.1 = k
    · rw [if_pos he, if_pos he]
    · rw [if_neg he, if_neg he]
      exact ih

theorem collectGo_congr (F S : List (String × FileContent)) :
    ∀ (entries : List (String × FileContent)) (acc : List ParseOutput),
      (∀ m ∈ entries.map Prod.fst,
        parse_file F (joinPath DATA_DIR m) = parse_file S (joinPath DATA_DIR m)) →
      collectGo F entries acc = collectGo S entries acc := by
  intro entries
  induction entries with
  | nil => intro acc _; rfl
  | cons e rest ih =>
    intro acc h
    unfold collectGo
    rw [List.foldl_cons, List.foldl_cons]
    have he : parse_file F (joinPath DATA_DIR e.1) = parse_file S (joinPath DATA_DIR e.1) :=
      h e.1 (List.mem_map_of_mem Prod.fst (List.mem_cons_self e rest))
    rw [he]
    exact ih _ (fun m hm => h m (by
      rw [List.map_cons]
      exact List.mem_cons_of_mem e.1 hm))

theorem collectGo_append (F : List (String × FileContent))
    (a b : List (String × FileContent)) (acc : List ParseOutput) :
    collectGo F (a ++ b) acc = collectGo F b (collectGo F a acc) := by
  unfold collectGo
  rw [List.foldl_append]

theorem collectGo_cons (F : List (String × FileContent)) (e : String × FileContent)
    (entries : List (String × FileContent)) (acc : List ParseOutput) :
    collectGo F (e :: entries) acc = collectGo F entries (collectGo F [e] acc) := by
  unfold collectGo
  rw [List.foldl_cons, List.foldl_cons, List.foldl_nil]

theorem collectGo_fail (F : List (String × FileContent)) (n : String)
    (content : FileContent) (acc : List ParseOutput)
    (hfail : isOkE (parse_file F (joinPath DATA_DIR n)) = false) :
    collectGo F [(n, content)] acc = acc := by
  unfold collectGo
  rw [List.foldl_cons, List.foldl_nil]
  by_cases hext : extOk n = true
  · rw [if_pos hext]
    cases hpf : parse_file F (joinPath DATA_DIR n) with
    | ok d => rw [hpf] at hfail; cases hfail
    | error e => rfl
  · rw [if_neg hext]

/-- Claim C6: the row extractor resolves only the basename inside the
configured data directory (so two paths with the same basename — including
traversal attempts — extract identically), reports not-found for an absent
file, reports unsupported-format for an extension that is neither `.pdf`
nor `.rtf`, and a file whose parse fails during a directory parse is
skipped without affecting the other files' results. -/
theorem C6_extractor_and_directory :
    (∀ (fs : List (String × FileContent)) (p q : String), basename p = basename q →
      extract_rows fs p = extract_rows fs q)
    ∧ (∀ (fs : List (String × FileContent)) (p : String),
        dictGet? fs (basename p) = none →
        extract_rows fs p = .error (.fileNotFound (joinPath DATA_DIR (basename p))))
    ∧ (∀ (fs : List (String × FileContent)) (p : String) (c : FileContent),
        dictGet? fs (basename p) = some c →
        extOk (joinPath DATA_DIR (basename p)) = false →
        extract_rows fs p = .error (.unsupportedFormat (joinPath DATA_DIR (basename p))))
    ∧ (∀ (fs1 fs2 : List (String × FileContent)) (n : String) (content : FileContent),
        (∀ m ∈ (fs1 ++ (n, content) :: fs2).map Prod.fst,
          basename (joinPath DATA_DIR m) = m) →
        n ∉ (fs1 ++ fs2).map Prod.fst →
        extOk n = true →
        isOkE (parse_file (fs1 ++ (n, content) :: fs2) (joinPath DATA_DIR n)) = false →
        parse_directory (fs1 ++ (n, content) :: fs2) = parse_directory (fs1 ++ fs2)) := by
  refine ⟨?_, ?_, ?_, ?_⟩
  · intro fs p q h
    unfold extract_rows
    rw [h]
  · intro fs p h
    unfold extract_rows
    rw [h]
  · intro fs p c hc hext
    unfold extract_rows
    rw [hc]
    have h1 : pyEndsWith (pyLower (joinPath DATA_DIR (basename p))) ".pdf" = false := by
      rcases Bool.or_eq_false_iff.mp (by simpa [extOk] using hext) with ⟨h1, _⟩
      exact h1
    have h2 : pyEndsWith (pyLower (joinPath DATA_DIR (basename p))) ".rtf" = false := by
      rcases Bool.or_eq_false_iff.mp (by simpa [extOk] using hext) with ⟨_, h2⟩
      exact h2
    simp only [h1, h2, Bool.false_eq_true, if_false]
  · intro fs1 fs2 n content hnames hfresh _hext hfail
    have hpf : ∀ m ∈ (fs1 ++ fs2).map Prod.fst,
        parse_file (fs1 ++ (n, content) :: fs2) (joinPath DATA_DIR m)
          = parse_file (fs1 ++ fs2) (joinPath DATA_DIR m) := by
      intro m hm
      have hmne : m ≠ n := fun he => hfresh (he ▸ hm)
      have hmF : m ∈ (fs1 ++ (n, content) :: fs2).map Prod.fst := by
        rw [List.map_append, List.mem_append] at hm
        rw [List.map_append, List.mem_append, List.map_cons, List.mem_cons]
        rcases hm with hm | hm
        · exact Or.inl hm
        · exact Or.inr (Or.inr hm)
      have hb : basename (joinPath DATA_DIR m) = m := hnames m hmF
      apply parse_file_congr
      rw [hb, hb]
      exact dictGet?_insert_ne fs1 fs2 n content m hmne
    have hfs1 : collectGo (fs1 ++ (n, content) :: fs2) fs1 []
        = collectGo (fs1 ++ fs2) fs1 [] :=
      collectGo_congr _ _ fs1 [] (fun m hm => hpf m (by
        rw [List.map_append, List.mem_append]
        exact Or.inl hm))
    have hL : collectGo (fs1 ++ (n, content) :: fs2) (fs1 ++ (n, content) :: fs2) []
        = collectGo (fs1 ++ (n, content) :: fs2) fs2
            (collectGo (fs1 ++ (n, content) :: fs2) fs1 []) := by
      rw [collectGo_append, collectGo_cons, collectGo_fail _ n content _ hfail]
    have hR : collectGo (fs1 ++ fs2) (fs1 ++ fs2) []
        = collectGo (fs1 ++ fs2) fs2 (collectGo (fs1 ++ fs2) fs1 []) :=
      collectGo_append (fs1 ++ fs2) fs1 fs2 []
    have hdata : collectGo (fs1 ++ (n, content) :: fs2) (fs1 ++ (n, content) :: fs2) []
        = collectGo (fs1 ++ fs2) (fs1 ++ fs2) [] := by
      rw [hL, hR, hfs1]
      exact collectGo_congr _ _ fs2 _ (fun m hm => hpf m (by
        rw [List.map_append, List.mem_append]
        exact Or.inr hm))
    unfold parse_directory
    rw [hdata]

/-- A page whose single table holds a header row and one course row. -/
def goodPage : PdfPage :=
  { tables := [[[some "course code", some "course title", some "credits"],
                [some "BIBL 101", some "Intro", some "3"]]],
    text := none }

/-- Data directory with a parseable PDF and a text file. -/
def fsW : List (String × FileContent) :=
  [("a.pdf", FileContent.pdfFile [goodPage]), ("notes.txt", FileContent.rtfFile "x")]

/-- Data directory with only the parseable PDF. -/
def fsGood : List (String × FileContent) := [("a.pdf", FileContent.pdfFile [goodPage])]

/-- A PDF whose rows contain no header, so its parse fails. -/
def badContent : FileContent :=
  FileContent.pdfFile [{ tables := [[[some "x"]]], text := none }]

/-- Witness for C6: traversal and plain paths with the same basename
extract identically; a missing file reports not-found; a `.txt` file
reports unsupported-format; inserting a failing `.pdf` into the directory
leaves the directory parse unchanged. -/
theorem C6_witness :
    extract_rows fsW "../../secret/a.pdf" = extract_rows fsW "a.pdf"
    ∧ extract_rows fsW "missing.pdf"
        = .error (.fileNotFound (joinPath DATA_DIR (basename "missing.pdf")))
    ∧ extract_rows fsW "notes.txt"
        = .error (.unsupportedFormat (joinPath DATA_DIR (basename "notes.txt")))
    ∧ parse_directory (fsGood ++ ("bad.pdf", badContent) :: [])
        = parse_directory (fsGood ++ []) := by
  refine ⟨?_, ?_, ?_, ?_⟩
  · exact C6_extractor_and_directory.1 fsW "../../secret/a.pdf" "a.pdf" (by decide)
  · exact C6_extractor_and_directory.2.1 fsW "missing.pdf" (by decide)
  · exact C6_extractor_and_directory.2.2.1 fsW "notes.txt" (FileContent.rtfFile "x")
      (by decide) (by decide)
  · exact C6_extractor_and_directory.2.2.2 fsGood [] "bad.pdf" badContent
      (by decide) (by decide) (by decide) (by decide)

end DegreePlanner
